import Mathlib

/-!
Verification of the environment-store subsystem of the `mirorim-cli`
repository (Go).  The functions embedded here come from
`internal/dotenv/dotenv.go` and the `env` subcommands of the command
layer.  Go strings are modelled as `List Char`; `.env` and `env.d.ts`
files are modelled at the line level (a file is a `List Str` of lines,
`Option` distinguishing an absent file); the Go map `Variables` is
modelled as an association list with unique keys (insertion replaces in
place, as a Go map does).  Go's map iteration order is unspecified; the
association-list order is one admissible enumeration, and no theorem
below depends on it beyond per-key lookups.
-/

namespace MirorimCli

/-- Go strings modelled as lists of characters. -/
abbrev Str := List Char

/-- Characters treated as white space by Go's `strings.TrimSpace`
(the Latin-1 range of `unicode.IsSpace`; the rarely used higher
Unicode space code points are not modelled). -/
def goIsSpace (c : Char) : Bool :=
  c = '\t' || c = '\n' || c = '\x0b' || c = '\x0c' || c = '\r' || c = ' '
    || c = '\u0085' || c = ' '

/-- Go `strings.HasPrefix s p`. -/
def hasPrefix : Str → Str → Bool
  | _, [] => true
  | [], _ :: _ => false
  | c :: s, p :: ps => if c = p then hasPrefix s ps else false

/-- Go `strings.Contains s sub` (substring containment). -/
def goContains : Str → Str → Bool
  | [], sub => hasPrefix [] sub
  | c :: rest, sub => hasPrefix (c :: rest) sub || goContains rest sub

/-- Go `strings.ToUpper` (ASCII case mapping, as `Char.toUpper`). -/
def toUpper (s : Str) : Str := s.map Char.toUpper

/-- Go `strings.TrimSpace`. -/
def trimSpace (s : Str) : Str :=
  ((s.dropWhile goIsSpace).reverse.dropWhile goIsSpace).reverse

/-- Go `strings.SplitN line "=" 2`: `none` when the line has no `'='`
(the Go call returns a one-element slice), otherwise the part before the
first `'='` and the part after it. -/
def splitFirstEq (s : Str) : Option (Str × Str) :=
  if '=' ∈ s then
    some (s.takeWhile (fun c => c ≠ '='), (s.dropWhile (fun c => c ≠ '=')).tail)
  else none

/-- Go `strings.Join lines "\n"` (how the on-disk bytes relate to the
line-level model; `bufio.Scanner` inverts this). -/
def joinLines : List Str → Str
  | [] => []
  | [l] => l
  | l :: ls => l ++ '\n' :: joinLines ls

/-! ## The environment store (`DotenvFile.Variables`) -/

/-- Map update as a Go map performs it: replace the unique existing
entry in place, or append a new one. -/
def insertVar : List (Str × Str) → Str → Str → List (Str × Str)
  | [], k, v => [(k, v)]
  | (k', v') :: rest, k, v =>
    if k' = k then (k, v) :: rest else (k', v') :: insertVar rest k v

/-- First-match lookup in the association list (a Go map's keys are
unique, so first match is the match). -/
def lookupVar : List (Str × Str) → Str → Option Str
  | [], _ => none
  | (k', v') :: rest, k => if k' = k then some v' else lookupVar rest k

/-- Go `delete(e.Variables, key)`: drop the entry for the key, exactly
as given (no case normalization), from `RemoveKey`. -/
def removeKey : List (Str × Str) → Str → List (Str × Str)
  | [], _ => []
  | (k', v') :: rest, k =>
    if k' = k then removeKey rest k else (k', v') :: removeKey rest k

/-- `AddOrUpdateKey`: upper-cases the key, then stores the value. -/
def addOrUpdateKey (m : List (Str × Str)) (k v : Str) : List (Str × Str) :=
  insertVar m (toUpper k) v

/-- `ListKeys`. -/
def listKeys (m : List (Str × Str)) : List Str := m.map Prod.fst

/-- The parsing loop of `LoadEnvFile`, line by line over the file:
skip a line beginning with `'#'` or equal to the empty string; skip a
line with no `'='`; otherwise split at the first `'='`, trim both
parts, and store. -/
def loadEnvLines : List Str → List (Str × Str) → List (Str × Str)
  | [], m => m
  | line :: rest, m =>
    if hasPrefix line ['#'] = true ∨ line = [] then loadEnvLines rest m
    else
      match splitFirstEq line with
      | none => loadEnvLines rest m
      | some kv => loadEnvLines rest (insertVar m (trimSpace kv.1) (trimSpace kv.2))

/-- `LoadEnvFile`, at the line level, starting from the empty map (an
absent file is created empty first, so it contributes no lines). -/
def loadEnvFile (lines : List Str) : List (Str × Str) := loadEnvLines lines []

/-- `SaveEnvFile`: one `key=value` line per entry. -/
def saveEnvFile (m : List (Str × Str)) : List Str :=
  m.map (fun kv => kv.1 ++ '=' :: kv.2)

/-! ## The declaration mirror (`env.d.ts`) -/

/-- The wrapper marker line written and searched for by the Go code. -/
def markerL : Str := "declare module \"@env\" \x7b".data

/-- The closing-brace line of the wrapper block. -/
def closeL : Str := "\x7d".data

/-- The search pattern `fmt.Sprintf("export const %s", key)` used by
`UpdateEnvDTS` — note the key is used as given, not upper-cased. -/
def searchPat (k : Str) : Str := "export const ".data ++ k

/-- The declaration line
`fmt.Sprintf("  export const %s: string;", strings.ToUpper(key))`. -/
def declLine (k : Str) : Str :=
  "  export const ".data ++ toUpper k ++ ": string;".data

/-- `EnsureCorrectEnvDTSStructure`: an absent file is created with the
initial two-line structure; then, if the file's content does not
contain the marker as a substring, the file is reset to that
structure. -/
def ensureCorrectEnvDTSStructure (f : Option (List Str)) : List Str :=
  let content := match f with
    | none => [markerL, closeL]
    | some ls => ls
  if goContains (joinLines content) markerL then content else [markerL, closeL]

/-- The removal loop of `UpdateEnvDTS` (`isRemove = true`): delete the
first line containing `export const <key>`; keep everything else. -/
def removeDeclLine : List Str → Str → List Str
  | [], _ => []
  | l :: rest, k =>
    if goContains l (searchPat k) then rest else l :: removeDeclLine rest k

/-- The update loop of `UpdateEnvDTS` (`isRemove = false`): replace the
first line containing `export const <key>` with the fresh declaration
line, reporting whether a match was found. -/
def replaceDeclLine : List Str → Str → List Str × Bool
  | [], _ => ([], false)
  | l :: rest, k =>
    if goContains l (searchPat k) then (declLine k :: rest, true)
    else
      let r := replaceDeclLine rest k
      (l :: r.1, r.2)

/-- `UpdateEnvDTS`: heal the structure, then remove, replace in place,
or (for a non-empty key with no match) insert the declaration just
before the final line, which the Go code assumes is the closing
brace (`content = append(content[:len(content)-1], decl, closer)`). -/
def updateEnvDTS (f : Option (List Str)) (k : Str) (isRemove : Bool) : List Str :=
  let content := ensureCorrectEnvDTSStructure f
  if isRemove then removeDeclLine content k
  else
    let r := replaceDeclLine content k
    if r.2 then r.1
    else if k = [] then content
    else content.dropLast ++ [declLine k, closeL]

/-! ## The command layer (`env add` / `env update` / `env remove`)

The interactive prompts supply the key and the value; they are modelled
as parameters.  Reading the project configuration is assumed to
succeed, so `CheckEnvInitialized` is the configuration's
`envInitialized` flag. -/

/-- `EnsureExpoPrefix`. -/
def ensureExpoPrefix (k : Str) : Str :=
  if hasPrefix k "EXPO_PUBLIC_".data then k else "EXPO_PUBLIC_".data ++ k

/-- Outcome reported by an `env` subcommand. -/
inductive CmdOutcome where
  | ok
  | notInitialized
  | noVariables
deriving DecidableEq

/-- The files and configuration a command invocation touches. -/
structure ProjState where
  envInitialized : Bool
  projectType : Str
  envFile : Option (List Str)
  dtsFile : Option (List Str)
deriving DecidableEq

/-- The `env add` command: check `CheckEnvInitialized` first (print and
return when false), prefix the key for the expo variant, load the
`.env` file (creating it when absent), `AddOrUpdateKey`, mirror into
`env.d.ts` for the bare variant, and save. -/
def envAddCmd (st : ProjState) (k v : Str) : ProjState × CmdOutcome :=
  if st.envInitialized then
    let key := if st.projectType = "expo".data then ensureExpoPrefix k else k
    let store := addOrUpdateKey (loadEnvFile (st.envFile.getD [])) key v
    let dts :=
      if st.projectType = "bare".data then some (updateEnvDTS st.dtsFile key false)
      else st.dtsFile
    ({ st with envFile := some (saveEnvFile store), dtsFile := dts }, .ok)
  else (st, .notInitialized)

/-- The `env update` command: same initialization check, then load
(creating the `.env` file when absent), report when no keys exist,
otherwise upsert the selected key with the new value as `env add`
does. -/
def envUpdateCmd (st : ProjState) (k v : Str) : ProjState × CmdOutcome :=
  if st.envInitialized then
    let loaded := loadEnvFile (st.envFile.getD [])
    if listKeys loaded = [] then
      ({ st with envFile := some (st.envFile.getD []) }, .noVariables)
    else
      let key := if st.projectType = "expo".data then ensureExpoPrefix k else k
      let store := addOrUpdateKey loaded key v
      let dts :=
        if st.projectType = "bare".data then some (updateEnvDTS st.dtsFile key false)
        else st.dtsFile
      ({ st with envFile := some (saveEnvFile store), dtsFile := dts }, .ok)
  else (st, .notInitialized)

/-- The `env remove` command: same initialization check, then load,
report when no keys exist, otherwise `RemoveKey` the selected key and
mirror the removal for the bare variant. -/
def envRemoveCmd (st : ProjState) (k : Str) : ProjState × CmdOutcome :=
  if st.envInitialized then
    let loaded := loadEnvFile (st.envFile.getD [])
    if listKeys loaded = [] then
      ({ st with envFile := some (st.envFile.getD []) }, .noVariables)
    else
      let key := if st.projectType = "expo".data then ensureExpoPrefix k else k
      let store := removeKey loaded key
      let dts :=
        if st.projectType = "bare".data then some (updateEnvDTS st.dtsFile key true)
        else st.dtsFile
      ({ st with envFile := some (saveEnvFile store), dtsFile := dts }, .ok)
  else (st, .notInitialized)

/-! ## Spec-side definitions (for refinement statements and claim
preconditions; written from the spec's words, to be compared with the
source embedding above) -/

/-- Spec-side per-line parsing rule, following the spec's words: skip
blank lines and lines beginning with `#`; skip lines with no `=`;
otherwise split on the first `=` and trim surrounding whitespace from
both key and value. -/
def specParseLine (line : Str) : Option (Str × Str) :=
  if hasPrefix line ['#'] = true ∨ line = [] then none
  else
    match splitFirstEq line with
    | none => none
    | some kv => some (trimSpace kv.1, trimSpace kv.2)

/-- Spec-side store semantics: the value for a key is the one from the
last line that parses to that key, the last occurrence of a duplicate
key winning. -/
def specLastWins (lines : List Str) (k : Str) : Option Str :=
  (lines.filterMap specParseLine).foldl
    (fun o kv => if kv.1 = k then some kv.2 else o) none

/-- Claim C1's notion of a valid key: non-empty, no newline, no
leading `#`, containing no `=`. -/
def validKey (k : Str) : Prop :=
  k ≠ [] ∧ '\n' ∉ k ∧ hasPrefix k ['#'] = false ∧ '=' ∉ k

/-- Claim C1's notion of a valid value: no newline. -/
def validValue (v : Str) : Prop := '\n' ∉ v

instance (k : Str) : Decidable (validKey k) := by
  unfold validKey; infer_instance

instance (v : Str) : Decidable (validValue v) := by
  unfold validValue; infer_instance

/-- Folding a whole entry list into the store, one `insertVar` per
entry (the effect of loading the lines saved from that list). -/
def insertAll (m : List (Str × Str)) (acc : List (Str × Str)) : List (Str × Str) :=
  m.foldl (fun a kv => insertVar a kv.1 kv.2) acc

/-! ## Lemmas about the string helpers -/

theorem hasPrefix_iff (s p : Str) : hasPrefix s p = true ↔ ∃ t, s = p ++ t := by
  induction p generalizing s with
  | nil =>
    constructor
    · intro _; exact ⟨s, rfl⟩
    · intro _; cases s <;> rfl
  | cons c ps ih =>
    cases s with
    | nil =>
      constructor
      · intro h; exact absurd h (by simp [hasPrefix])
      · rintro ⟨t, ht⟩; exact absurd ht (by simp)
    | cons a s' =>
      constructor
      · intro h
        by_cases hac : a = c
        · subst hac
          simp only [hasPrefix, if_pos rfl] at h
          obtain ⟨t, rfl⟩ := (ih _).mp h
          exact ⟨t, rfl⟩
        · simp [hasPrefix, hac] at h
      · rintro ⟨t, ht⟩
        simp only [List.cons_append, List.cons.injEq] at ht
        obtain ⟨rfl, rfl⟩ := ht
        simp only [hasPrefix, if_pos rfl]
        exact (ih _).mpr ⟨t, rfl⟩

theorem hasPrefix_append (p t : Str) : hasPrefix (p ++ t) p = true :=
  (hasPrefix_iff _ _).mpr ⟨t, rfl⟩

theorem goContains_iff (s sub : Str) :
    goContains s sub = true ↔ ∃ a b, s = a ++ sub ++ b := by
  induction s with
  | nil =>
    simp only [goContains, hasPrefix_iff]
    constructor
    · rintro ⟨t, ht⟩
      exact ⟨[], t, ht⟩
    · rintro ⟨a, b, hab⟩
      have ha : a = [] := by
        cases a with
        | nil => rfl
        | cons x xs => simp at hab
      subst ha
      exact ⟨b, by simpa using hab⟩
  | cons c rest ih =>
    simp only [goContains, Bool.or_eq_true, ih, hasPrefix_iff]
    constructor
    · rintro (⟨t, ht⟩ | ⟨a, b, hab⟩)
      · exact ⟨[], t, by simpa using ht⟩
      · exact ⟨c :: a, b, by simp [hab]⟩
    · rintro ⟨a, b, hab⟩
      cases a with
      | nil =>
        left; exact ⟨b, by simpa using hab⟩
      | cons x xs =>
        right
        simp only [List.cons_append, List.cons.injEq] at hab
        exact ⟨xs, b, hab.2⟩

theorem goContains_append_mid (a sub b : Str) :
    goContains (a ++ sub ++ b) sub = true :=
  (goContains_iff _ _).mpr ⟨a, b, rfl⟩

theorem goContains_pat_mono (l p q : Str) (h : goContains l (p ++ q) = true) :
    goContains l p = true := by
  rcases (goContains_iff _ _).mp h with ⟨a, b, hab⟩
  exact (goContains_iff _ _).mpr ⟨a, q ++ b, by simp [hab]⟩

theorem not_contains_searchPat (l k : Str)
    (h : goContains l "export const ".data = false) :
    goContains l (searchPat k) = false := by
  by_contra hc
  have : goContains l (searchPat k) = true := by
    cases hq : goContains l (searchPat k) with
    | true => rfl
    | false => exact absurd hq hc
  exact absurd (goContains_pat_mono l _ k this) (by simp [h])

theorem marker_not_contains_pat (k : Str) :
    goContains markerL (searchPat k) = false :=
  not_contains_searchPat _ _ (by decide)

theorem close_not_contains_pat (k : Str) :
    goContains closeL (searchPat k) = false :=
  not_contains_searchPat _ _ (by decide)

theorem decl_contains_pat (k : Str) (h : toUpper k = k) :
    goContains (declLine k) (searchPat k) = true := by
  have hd : declLine k = [' ', ' '] ++ searchPat k ++ ": string;".data := by
    simp [declLine, searchPat, h]
  rw [hd]
  exact goContains_append_mid _ _ _

theorem toUpper_append (a b : Str) : toUpper (a ++ b) = toUpper a ++ toUpper b :=
  List.map_append _ _ _

/-! ## Lemmas about the store -/

theorem lookupVar_insertVar (m : List (Str × Str)) (k v k2 : Str) :
    lookupVar (insertVar m k v) k2 = if k = k2 then some v else lookupVar m k2 := by
  induction m with
  | nil => simp [insertVar, lookupVar]
  | cons kv rest ih =>
    obtain ⟨k', v'⟩ := kv
    by_cases h : k' = k
    · subst h
      by_cases h2 : k' = k2 <;> simp [insertVar, lookupVar, h2]
    · simp only [insertVar, if_neg h, lookupVar]
      by_cases h2 : k' = k2
      · subst h2
        have hne : ¬ k = k' := fun hc => h hc.symm
        simp [lookupVar, hne]
      · simp [lookupVar, h2, ih]

theorem lookupVar_removeKey_self (m : List (Str × Str)) (k : Str) :
    lookupVar (removeKey m k) k = none := by
  induction m with
  | nil => rfl
  | cons kv rest ih =>
    obtain ⟨k', v'⟩ := kv
    by_cases h : k' = k
    · simp [removeKey, h, ih]
    · simp [removeKey, h, lookupVar, ih]

theorem removeKey_of_lookup_none (m : List (Str × Str)) (k : Str)
    (h : lookupVar m k = none) : removeKey m k = m := by
  induction m with
  | nil => rfl
  | cons kv rest ih =>
    obtain ⟨k', v'⟩ := kv
    by_cases hk : k' = k
    · simp [lookupVar, hk] at h
    · simp only [lookupVar, if_neg hk] at h
      simp [removeKey, hk, ih h]

theorem lookupVar_insertAll_of_not_mem :
    ∀ (m acc : List (Str × Str)) (k : Str), k ∉ listKeys m →
    lookupVar (insertAll m acc) k = lookupVar acc k := by
  intro m
  induction m with
  | nil => intro acc k _; rfl
  | cons kv rest ih =>
    intro acc k h
    obtain ⟨k', v'⟩ := kv
    simp only [listKeys, List.map_cons, List.mem_cons, not_or] at h
    have step : insertAll ((k', v') :: rest) acc
        = insertAll rest (insertVar acc k' v') := rfl
    rw [step, ih _ _ h.2, lookupVar_insertVar]
    have hne : ¬ k' = k := fun hc => h.1 hc.symm
    simp [hne]

theorem lookupVar_insertAll_mem :
    ∀ (m acc : List (Str × Str)), (listKeys m).Nodup →
    ∀ kv : Str × Str, kv ∈ m →
    lookupVar (insertAll m acc) kv.1 = some kv.2 := by
  intro m
  induction m with
  | nil => intro acc _ kv hm; cases hm
  | cons kv0 rest ih =>
    intro acc hnd kv hm
    obtain ⟨k0, v0⟩ := kv0
    simp only [listKeys, List.map_cons, List.nodup_cons] at hnd
    have hn0 : k0 ∉ listKeys rest := by
      intro hc
      exact hnd.1 (by simpa [listKeys] using hc)
    have step : insertAll ((k0, v0) :: rest) acc
        = insertAll rest (insertVar acc k0 v0) := rfl
    rcases List.mem_cons.mp hm with rfl | hm
    · rw [step, lookupVar_insertAll_of_not_mem _ _ _ hn0, lookupVar_insertVar]
      simp
    · rw [step]
      exact ih _ hnd.2 kv hm

/-! ## Lemmas about parsing a saved line -/

theorem hasPrefix_nil_right (s : Str) : hasPrefix s [] = true := by
  cases s <;> rfl

theorem hasPrefix_hash_append (k t : Str) (hk : k ≠ []) :
    hasPrefix (k ++ t) ['#'] = hasPrefix k ['#'] := by
  cases k with
  | nil => exact absurd rfl hk
  | cons c k' =>
    simp [hasPrefix, hasPrefix_nil_right]

theorem takeWhile_append_of (p : Char → Bool) (k : Str) (x : Char) (v : Str)
    (hk : ∀ c ∈ k, p c = true) (hx : p x = false) :
    (k ++ x :: v).takeWhile p = k := by
  induction k with
  | nil => simp [List.takeWhile_cons, hx]
  | cons c k' ih =>
    have hc : p c = true := hk c (List.mem_cons_self _ _)
    simp only [List.cons_append, List.takeWhile_cons, hc, if_true]
    rw [ih (fun c2 h2 => hk c2 (List.mem_cons_of_mem _ h2))]

theorem dropWhile_append_of (p : Char → Bool) (k : Str) (x : Char) (v : Str)
    (hk : ∀ c ∈ k, p c = true) (hx : p x = false) :
    (k ++ x :: v).dropWhile p = x :: v := by
  induction k with
  | nil => simp [List.dropWhile_cons, hx]
  | cons c k' ih =>
    have hc : p c = true := hk c (List.mem_cons_self _ _)
    simp only [List.cons_append, List.dropWhile_cons, hc, if_true]
    exact ih (fun c2 h2 => hk c2 (List.mem_cons_of_mem _ h2))

theorem splitFirstEq_append (k v : Str) (h : '=' ∉ k) :
    splitFirstEq (k ++ '=' :: v) = some (k, v) := by
  have hm : '=' ∈ k ++ '=' :: v := List.mem_append_right _ (List.mem_cons_self _ _)
  have hk : ∀ c ∈ k, (decide (c ≠ '=')) = true := by
    intro c hc
    simp only [decide_eq_true_eq]
    exact fun he => h (he ▸ hc)
  have hx : (decide (('=' : Char) ≠ '=')) = false := by simp
  simp only [splitFirstEq, if_pos hm]
  rw [takeWhile_append_of _ _ _ _ hk hx, dropWhile_append_of _ _ _ _ hk hx]
  rfl

theorem loadEnvLines_saveEnvFile :
    ∀ (m acc : List (Str × Str)),
    (∀ kv ∈ m, validKey kv.1 ∧ trimSpace kv.1 = kv.1 ∧ trimSpace kv.2 = kv.2) →
    loadEnvLines (saveEnvFile m) acc = insertAll m acc := by
  intro m
  induction m with
  | nil => intro acc _; rfl
  | cons kv rest ih =>
    intro acc h
    obtain ⟨k, v⟩ := kv
    obtain ⟨⟨hne, _, hhash, heq⟩, htk, htv⟩ := h (k, v) (List.mem_cons_self _ _)
    have hline : saveEnvFile ((k, v) :: rest) = (k ++ '=' :: v) :: saveEnvFile rest := rfl
    have hcond : ¬ (hasPrefix (k ++ '=' :: v) ['#'] = true ∨ k ++ '=' :: v = []) := by
      rintro (hp | hp)
      · rw [hasPrefix_hash_append _ _ hne] at hp
        rw [hhash] at hp
        cases hp
      · exact absurd hp (by simp)
    rw [hline]
    simp only [loadEnvLines, if_neg hcond, splitFirstEq_append _ _ heq]
    rw [htk, htv]
    exact ih _ (fun kv2 h2 => h kv2 (List.mem_cons_of_mem _ h2))

/-! ## The refinement lemma for the parsing loop -/

theorem lookupVar_loadEnvLines :
    ∀ (lines : List Str) (acc : List (Str × Str)) (k : Str),
    lookupVar (loadEnvLines lines acc) k
      = (lines.filterMap specParseLine).foldl
          (fun o kv => if kv.1 = k then some kv.2 else o) (lookupVar acc k) := by
  intro lines
  induction lines with
  | nil => intro acc k; rfl
  | cons line rest ih =>
    intro acc k
    by_cases h1 : hasPrefix line ['#'] = true ∨ line = []
    · simp only [loadEnvLines, if_pos h1, List.filterMap_cons, specParseLine]
      exact ih acc k
    · simp only [loadEnvLines, if_neg h1, List.filterMap_cons, specParseLine]
      cases h2 : splitFirstEq line with
      | none =>
        simp only [h2]
        exact ih acc k
      | some kv =>
        simp only [h2, List.foldl_cons]
        rw [ih _ k, lookupVar_insertVar]

/-! ## Lemmas about the declaration mirror -/

theorem joinLines_mem_decomp :
    ∀ (ls : List Str) (l : Str), l ∈ ls → ∃ a b, joinLines ls = a ++ l ++ b := by
  intro ls
  induction ls with
  | nil => intro l hl; cases hl
  | cons x rest ih =>
    intro l hl
    rcases List.mem_cons.mp hl with rfl | hl
    · cases rest with
      | nil => exact ⟨[], [], by simp [joinLines]⟩
      | cons y rest2 => exact ⟨[], '\n' :: joinLines (y :: rest2), by simp [joinLines]⟩
    · obtain ⟨a, b, hab⟩ := ih l hl
      cases rest with
      | nil => cases hl
      | cons y rest2 =>
        refine ⟨x ++ '\n' :: a, b, ?_⟩
        simp [joinLines, hab]

theorem ensure_of_mem_marker (ls : List Str) (h : markerL ∈ ls) :
    ensureCorrectEnvDTSStructure (some ls) = ls := by
  obtain ⟨a, b, hab⟩ := joinLines_mem_decomp ls markerL h
  have hc : goContains (joinLines ls) markerL = true := by
    rw [hab]; exact goContains_append_mid _ _ _
  simp [ensureCorrectEnvDTSStructure, hc]

theorem replaceDeclLine_none (k : Str) :
    ∀ (c : List Str), (∀ l ∈ c, goContains l (searchPat k) = false) →
    replaceDeclLine c k = (c, false) := by
  intro c
  induction c with
  | nil => intro _; rfl
  | cons l rest ih =>
    intro h
    have hl : goContains l (searchPat k) = false := h l (List.mem_cons_self _ _)
    have ih2 := ih (fun l2 h2 => h l2 (List.mem_cons_of_mem _ h2))
    simp [replaceDeclLine, hl, ih2]

theorem replaceDeclLine_found (k : Str) :
    ∀ (pre : List Str) (l : Str) (post : List Str),
    (∀ l2 ∈ pre, goContains l2 (searchPat k) = false) →
    goContains l (searchPat k) = true →
    replaceDeclLine (pre ++ l :: post) k = (pre ++ declLine k :: post, true) := by
  intro pre
  induction pre with
  | nil =>
    intro l post _ hl
    simp [replaceDeclLine, hl]
  | cons x pre2 ih =>
    intro l post hpre hl
    have hx : goContains x (searchPat k) = false := hpre x (List.mem_cons_self _ _)
    have ih2 := ih l post (fun l2 h2 => hpre l2 (List.mem_cons_of_mem _ h2)) hl
    simp [replaceDeclLine, hx, ih2]

theorem removeDeclLine_none (k : Str) :
    ∀ (c : List Str), (∀ l ∈ c, goContains l (searchPat k) = false) →
    removeDeclLine c k = c := by
  intro c
  induction c with
  | nil => intro _; rfl
  | cons l rest ih =>
    intro h
    have hl : goContains l (searchPat k) = false := h l (List.mem_cons_self _ _)
    have ih2 := ih (fun l2 h2 => h l2 (List.mem_cons_of_mem _ h2))
    simp [removeDeclLine, hl, ih2]

theorem dropLast_append_single {α : Type} (l : List α) (a : α) :
    (l ++ [a]).dropLast = l := by
  induction l with
  | nil => rfl
  | cons x xs ih =>
    cases xs with
    | nil => rfl
    | cons y ys =>
      simp only [List.cons_append, List.dropLast]
      exact congrArg (List.cons x) ih

theorem toUpper_expo : toUpper "EXPO_PUBLIC_".data = "EXPO_PUBLIC_".data := by
  decide

theorem hasPrefix_toUpper_expo (s : Str)
    (h : hasPrefix s "EXPO_PUBLIC_".data = true) :
    hasPrefix (toUpper s) "EXPO_PUBLIC_".data = true := by
  obtain ⟨t, rfl⟩ := (hasPrefix_iff _ _).mp h
  rw [toUpper_append, toUpper_expo]
  exact hasPrefix_append _ _

theorem ensure_not_contains (f : Option (List Str))
    (h : f = none ∨ ∃ ls, f = some ls ∧ goContains (joinLines ls) markerL = false) :
    ensureCorrectEnvDTSStructure f = [markerL, closeL] := by
  rcases h with rfl | ⟨ls, rfl, hc⟩
  · simp [ensureCorrectEnvDTSStructure]
  · simp [ensureCorrectEnvDTSStructure, hc]

theorem updateEnvDTS_insert (dts : List Str) (k : Str)
    (hm : markerL ∈ dts)
    (hnone : ∀ l ∈ dts, goContains l (searchPat k) = false)
    (hk : k ≠ []) :
    updateEnvDTS (some dts) k false = dts.dropLast ++ [declLine k, closeL] := by
  simp only [updateEnvDTS, ensure_of_mem_marker _ hm]
  rw [replaceDeclLine_none k dts hnone]
  simp [hk]

theorem updateEnvDTS_replace (pre : List Str) (l : Str) (post : List Str) (k : Str)
    (hm : markerL ∈ pre ++ l :: post)
    (hpre : ∀ l2 ∈ pre, goContains l2 (searchPat k) = false)
    (hl : goContains l (searchPat k) = true) :
    updateEnvDTS (some (pre ++ l :: post)) k false = pre ++ declLine k :: post := by
  simp only [updateEnvDTS, ensure_of_mem_marker _ hm]
  rw [replaceDeclLine_found k pre l post hpre hl]
  simp

theorem updateEnvDTS_remove_noop (dts : List Str) (k : Str)
    (hm : markerL ∈ dts)
    (hnone : ∀ l ∈ dts, goContains l (searchPat k) = false) :
    updateEnvDTS (some dts) k true = dts := by
  simp only [updateEnvDTS, ensure_of_mem_marker _ hm]
  simp [removeDeclLine_none k dts hnone]

/-! ## Claim theorems -/

/-- C1 (counterexample): the claimed save/load round trip fails as
stated.  The entry key `K` is valid (non-empty, no newline, no leading
`#`, no `=`) and the value `" v"` is valid (no newline), yet after
`SaveEnvFile` followed by `LoadEnvFile` the stored value is `"v"`:
`LoadEnvFile` trims surrounding whitespace, so the leading space of the
value is lost, and the key (already upper-case, so case normalization
changes nothing) no longer maps to the original value. -/
theorem c1_roundtrip_counterexample :
    validKey "K".data ∧ validValue " v".data ∧
    loadEnvFile (saveEnvFile [("K".data, " v".data)]) = [("K".data, "v".data)] ∧
    lookupVar (loadEnvFile (saveEnvFile [("K".data, " v".data)]))
        (toUpper "K".data) ≠ some " v".data ∧
    lookupVar (loadEnvFile (saveEnvFile [("K".data, " v".data)]))
        "K".data ≠ some " v".data := by
  refine ⟨by decide, by decide, by decide, by decide, by decide⟩

/-- C1 (amended): for every store with distinct keys (a Go map cannot
hold duplicates) whose entries map valid keys to valid values, where in
addition keys and values carry no leading or trailing whitespace (they
are fixed by `TrimSpace`), saving with `SaveEnvFile` and loading with
`LoadEnvFile` yields a store in which every key present before the save
is present — unchanged, since neither operation changes key case — with
the same value. -/
theorem c1_save_load_roundtrip (m : List (Str × Str))
    (hnd : (listKeys m).Nodup)
    (hval : ∀ kv ∈ m, validKey kv.1 ∧ validValue kv.2 ∧
      trimSpace kv.1 = kv.1 ∧ trimSpace kv.2 = kv.2) :
    ∀ kv ∈ m, lookupVar (loadEnvFile (saveEnvFile m)) kv.1 = some kv.2 := by
  intro kv hm
  have h2 : ∀ kv2 ∈ m, validKey kv2.1 ∧ trimSpace kv2.1 = kv2.1 ∧
      trimSpace kv2.2 = kv2.2 := by
    intro kv2 hm2
    obtain ⟨h1, _, h3, h4⟩ := hval kv2 hm2
    exact ⟨h1, h3, h4⟩
  unfold loadEnvFile
  rw [loadEnvLines_saveEnvFile m [] h2]
  exact lookupVar_insertAll_mem m [] hnd kv hm

/-- C1 (witness): the amended round trip applied to the concrete store
mapping `K` to `v` and `A_B` to `x=y`. -/
theorem c1_save_load_roundtrip_witness :
    lookupVar (loadEnvFile (saveEnvFile [("K".data, "v".data),
      ("A_B".data, "x=y".data)])) "A_B".data = some "x=y".data :=
  c1_save_load_roundtrip [("K".data, "v".data), ("A_B".data, "x=y".data)]
    (by decide) (by decide) ("A_B".data, "x=y".data) (by decide)

/-- C4 (counterexample): the claim fails for a lower-case key.
`AddOrUpdateKey` stores `a` upper-cased as `A`, but `RemoveKey` deletes
the key exactly as given: removing `a` leaves the entry for `A` — the
upper-cased form of the key — in the store. -/
theorem c4_remove_counterexample :
    removeKey (addOrUpdateKey [] "a".data "1".data) "a".data
        = [("A".data, "1".data)] ∧
    lookupVar (removeKey (addOrUpdateKey [] "a".data "1".data) "a".data)
        (toUpper "a".data) = some "1".data := by
  refine ⟨by decide, by decide⟩

/-- C4 (amended): `AddOrUpdateKey` normalizes keys to upper-case, but
`RemoveKey` does not; removing the upper-cased form of the key (which
is what the command layer passes, since removable keys are selected
from `ListKeys`) leaves the store with no entry for it: for every store
and key, `AddOrUpdate(k, v)` followed by `Remove(toUpper k)` leaves no
entry for the upper-cased form of `k`. -/
theorem c4_add_remove_upper (m : List (Str × Str)) (k v : Str) :
    lookupVar (removeKey (addOrUpdateKey m k v) (toUpper k)) (toUpper k)
      = none :=
  lookupVar_removeKey_self _ _

/-- C5 (confirmed): the parsing loop of `LoadEnvFile` refines the
spec's description: blank lines and lines beginning with `#` are
skipped, lines with no `=` are skipped, every other line is split on
the first `=` with both parts trimmed, and the last occurrence of a
duplicate key wins — for every key, the loaded value is the value
computed by the spec-side last-wins semantics `specLastWins`. -/
theorem c5_load_refines_lastwins (lines : List Str) (k : Str) :
    lookupVar (loadEnvFile lines) k = specLastWins lines k := by
  unfold loadEnvFile specLastWins
  exact lookupVar_loadEnvLines lines [] k

/-- C2 (counterexample): the claim fails for a lower-case key.  Two
upserts of key `a` (values `1` then `2`) starting from a freshly
initialized mirror: the stored value is `2` as claimed, but the second
upsert searches the mirror for `export const a` case-sensitively,
misses the previously written `  export const A: string;` line, and
inserts a second copy — the mirror ends with two declaration lines for
the key's upper-cased form and none matching the literal key. -/
theorem c2_double_add_counterexample :
    lookupVar (addOrUpdateKey (addOrUpdateKey [] "a".data "1".data)
        "a".data "2".data) (toUpper "a".data) = some "2".data ∧
    updateEnvDTS (some (updateEnvDTS (some [markerL, closeL]) "a".data false))
        "a".data false
      = [markerL, declLine "a".data, declLine "a".data, closeL] ∧
    ((updateEnvDTS (some (updateEnvDTS (some [markerL, closeL]) "a".data false))
        "a".data false).filter
          (fun l => l = declLine "a".data)).length = 2 ∧
    ((updateEnvDTS (some (updateEnvDTS (some [markerL, closeL]) "a".data false))
        "a".data false).filter
          (fun l => goContains l (searchPat "a".data))).length = 0 := by
  refine ⟨by decide, by decide, by decide, by decide⟩

/-- C2 (amended): for every non-empty key `k` already in upper-case
(so the case-sensitive mirror search can find the line it previously
wrote) and values `v1 ≠ v2`, performing `AddOrUpdate(k, v1)` then
`AddOrUpdate(k, v2)` leaves the stored value for `k` equal to `v2`,
and, starting from any well-formed mirror with no line referencing `k`,
the two accompanying upserts leave exactly one declaration line for `k`
in the mirror. -/
theorem c2_double_add (m : List (Str × Str)) (body : List Str) (k v1 v2 : Str)
    (_hne : v1 ≠ v2) (hup : toUpper k = k) (hk : k ≠ [])
    (hclean : ∀ l ∈ markerL :: body ++ [closeL],
      goContains l (searchPat k) = false) :
    lookupVar (addOrUpdateKey (addOrUpdateKey m k v1) k v2) (toUpper k)
        = some v2 ∧
    updateEnvDTS (some (updateEnvDTS (some (markerL :: body ++ [closeL]))
        k false)) k false
      = markerL :: body ++ [declLine k, closeL] ∧
    ((markerL :: body ++ [declLine k, closeL]).filter
        (fun l => goContains l (searchPat k))).length = 1 := by
  have hstore : lookupVar (addOrUpdateKey (addOrUpdateKey m k v1) k v2)
      (toUpper k) = some v2 := by
    unfold addOrUpdateKey
    rw [lookupVar_insertVar]
    simp
  have hd1 : updateEnvDTS (some (markerL :: body ++ [closeL])) k false
      = markerL :: body ++ [declLine k, closeL] := by
    have hins : updateEnvDTS (some (markerL :: body ++ [closeL])) k false
        = (markerL :: body ++ [closeL]).dropLast ++ [declLine k, closeL] :=
      updateEnvDTS_insert (markerL :: body ++ [closeL]) k
        (List.mem_cons_self _ _) hclean hk
    have hdrop : (markerL :: body ++ [closeL]).dropLast = markerL :: body := by
      rw [show markerL :: body ++ [closeL] = (markerL :: body) ++ [closeL] by simp]
      exact dropLast_append_single _ _
    rw [hins, hdrop]
  have hdecl : goContains (declLine k) (searchPat k) = true :=
    decl_contains_pat k hup
  have hd2 : updateEnvDTS (some (markerL :: body ++ [declLine k, closeL]))
      k false = markerL :: body ++ [declLine k, closeL] := by
    have hsplit : markerL :: body ++ [declLine k, closeL]
        = (markerL :: body) ++ declLine k :: [closeL] := by simp
    rw [hsplit, updateEnvDTS_replace (markerL :: body) (declLine k) [closeL] k
      (List.mem_cons_self _ _)
      (fun l2 h2 => hclean l2 (by
        rcases List.mem_cons.mp h2 with rfl | h3
        · exact List.mem_cons_self _ _
        · exact List.mem_cons_of_mem _ (List.mem_append_left _ h3)))
      hdecl]
  have hcount : ((markerL :: body ++ [declLine k, closeL]).filter
      (fun l => goContains l (searchPat k))).length = 1 := by
    have hmf : goContains markerL (searchPat k) = false :=
      hclean markerL (List.mem_cons_self _ _)
    have hcf : goContains closeL (searchPat k) = false :=
      hclean closeL (List.mem_cons_of_mem _
        (List.mem_append_right _ (List.mem_cons_self _ _)))
    have hbf : ∀ l ∈ body, goContains l (searchPat k) = false := fun l h =>
      hclean l (List.mem_cons_of_mem _ (List.mem_append_left _ h))
    have hfb : body.filter (fun l => goContains l (searchPat k)) = [] :=
      List.filter_eq_nil_iff.mpr (fun l h => by simp [hbf l h])
    simp [List.filter_append, List.filter_cons, hmf, hcf, hdecl, hfb]
  rw [hd1]
  exact ⟨hstore, hd2, hcount⟩

/-- C2 (witness): the amended claim applied to the empty store, the
empty mirror body, key `A` and values `1`, `2`. -/
theorem c2_double_add_witness :
    lookupVar (addOrUpdateKey (addOrUpdateKey [] "A".data "1".data)
        "A".data "2".data) (toUpper "A".data) = some "2".data ∧
    updateEnvDTS (some (updateEnvDTS (some (markerL :: [] ++ [closeL]))
        "A".data false)) "A".data false
      = markerL :: [] ++ [declLine "A".data, closeL] :=
  ⟨(c2_double_add [] [] "A".data "1".data "2".data (by decide) (by decide)
      (by decide) (by decide)).1,
   (c2_double_add [] [] "A".data "1".data "2".data (by decide) (by decide)
      (by decide) (by decide)).2.1⟩

/-- C3 (counterexample): the claim's general guarantee — after any
upsert the wrapper block exists and is well-formed — fails.  A file
whose single line is the opening marker (so the closing brace is
missing) passes the structure check unrepaired, because
`EnsureCorrectEnvDTSStructure` only tests substring containment of the
marker; the insert then drops the last line (assumed to be `}`) and the
resulting file no longer contains the marker at all. -/
theorem c3_upsert_counterexample :
    updateEnvDTS (some [markerL]) "A".data false
        = [declLine "A".data, closeL] ∧
    goContains (joinLines (updateEnvDTS (some [markerL]) "A".data false))
        markerL = false := by
  refine ⟨by decide, by decide⟩

/-- C3 (amended): for every declaration-file content that does not
contain the wrapper marker (including an absent file), an upsert of any
non-empty key leaves the file as exactly one well-formed
`declare module "@env"` block whose body contains the declaration for
the new key and nothing else, and a remove leaves the well-formed empty
block; the claim's further guarantee for arbitrary contents that do
contain the marker does not hold (see the counterexample). -/
theorem c3_self_healing (f : Option (List Str)) (k : Str)
    (hf : f = none ∨ ∃ ls, f = some ls ∧
      goContains (joinLines ls) markerL = false)
    (hk : k ≠ []) :
    updateEnvDTS f k false = [markerL, declLine k, closeL] ∧
    updateEnvDTS f k true = [markerL, closeL] := by
  have hens : ensureCorrectEnvDTSStructure f = [markerL, closeL] :=
    ensure_not_contains f hf
  have hclean : ∀ l ∈ [markerL, closeL], goContains l (searchPat k) = false := by
    intro l hl
    rcases List.mem_cons.mp hl with rfl | hl
    · exact marker_not_contains_pat k
    · rcases List.mem_cons.mp hl with rfl | hl
      · exact close_not_contains_pat k
      · cases hl
  constructor
  · simp only [updateEnvDTS, hens]
    rw [replaceDeclLine_none k _ hclean]
    simp [hk]
  · simp only [updateEnvDTS, hens]
    simp [removeDeclLine_none k _ hclean]

/-- C3 (witness): the amended claim applied to an absent file and to a
one-line file `junk`, with key `A`. -/
theorem c3_self_healing_witness :
    updateEnvDTS none "A".data false = [markerL, declLine "A".data, closeL] ∧
    updateEnvDTS (some ["junk".data]) "A".data true = [markerL, closeL] :=
  ⟨(c3_self_healing none "A".data (Or.inl rfl) (by decide)).1,
   (c3_self_healing (some ["junk".data]) "A".data
      (Or.inr ⟨["junk".data], rfl, by decide⟩) (by decide)).2⟩

/-- C6 (confirmed): for every well-formed declaration file
(`declare module "@env" {`, a body, then the closing `}`) and every
non-empty key: if a line referencing that key already exists, the
upsert replaces the first such line in place, preserving its position
and leaving every other line unchanged; otherwise it inserts exactly
one new declaration line immediately before the closing brace. -/
theorem c6_upsert_wellformed (body : List Str) (k : Str) (hk : k ≠ []) :
    (∀ pre l post, markerL :: body ++ [closeL] = pre ++ l :: post →
      (∀ l2 ∈ pre, goContains l2 (searchPat k) = false) →
      goContains l (searchPat k) = true →
      updateEnvDTS (some (markerL :: body ++ [closeL])) k false
        = pre ++ declLine k :: post) ∧
    ((∀ l ∈ markerL :: body ++ [closeL], goContains l (searchPat k) = false) →
      updateEnvDTS (some (markerL :: body ++ [closeL])) k false
        = markerL :: body ++ [declLine k, closeL]) := by
  constructor
  · intro pre l post hsplit hpre hl
    have hm : markerL ∈ pre ++ l :: post := by
      rw [← hsplit]; exact List.mem_cons_self _ _
    rw [hsplit]
    exact updateEnvDTS_replace pre l post k hm hpre hl
  · intro hclean
    have hins : updateEnvDTS (some (markerL :: body ++ [closeL])) k false
        = (markerL :: body ++ [closeL]).dropLast ++ [declLine k, closeL] :=
      updateEnvDTS_insert (markerL :: body ++ [closeL]) k
        (List.mem_cons_self _ _) hclean hk
    have hdrop : (markerL :: body ++ [closeL]).dropLast = markerL :: body := by
      rw [show markerL :: body ++ [closeL] = (markerL :: body) ++ [closeL] by simp]
      exact dropLast_append_single _ _
    rw [hins, hdrop]

/-- C6 (witness): on the mirror `[marker, export const A, }]` the
upsert of `A` replaces the existing line in place, and the upsert of
`B` inserts its declaration just before the closing brace. -/
theorem c6_upsert_wellformed_witness :
    updateEnvDTS (some [markerL, "  export const A: string;".data, closeL])
        "A".data false = [markerL, declLine "A".data, closeL] ∧
    updateEnvDTS (some [markerL, "  export const A: string;".data, closeL])
        "B".data false
      = [markerL, "  export const A: string;".data, declLine "B".data, closeL] := by
  constructor
  · exact (c6_upsert_wellformed ["  export const A: string;".data] "A".data
      (by decide)).1 [markerL] "  export const A: string;".data [closeL]
      (by decide) (by decide) (by decide)
  · exact (c6_upsert_wellformed ["  export const A: string;".data] "B".data
      (by decide)).2 (by decide)

/-- C7 (confirmed): removing a key that is not present is a no-op and
not an error, in both files: `RemoveKey` leaves the store unchanged
(it returns nothing, so there is no error to report), and the removal
pass of `UpdateEnvDTS` leaves the declaration file's lines unchanged
when no line references the key (the file containing its marker, as
every mirror maintained by the tool does, so that the preceding
structure check is also a no-op). -/
theorem c7_remove_absent_noop (m : List (Str × Str)) (k : Str)
    (dts : List Str)
    (habsent : lookupVar m k = none)
    (hm : markerL ∈ dts)
    (hnoline : ∀ l ∈ dts, goContains l (searchPat k) = false) :
    removeKey m k = m ∧ updateEnvDTS (some dts) k true = dts :=
  ⟨removeKey_of_lookup_none m k habsent,
   updateEnvDTS_remove_noop dts k hm hnoline⟩

/-- C7 (witness): removing the absent key `B` from the store holding
only `A` and from the freshly initialized mirror changes neither. -/
theorem c7_remove_absent_noop_witness :
    removeKey [("A".data, "1".data)] "B".data = [("A".data, "1".data)] ∧
    updateEnvDTS (some [markerL, closeL]) "B".data true = [markerL, closeL] :=
  c7_remove_absent_noop [("A".data, "1".data)] "B".data [markerL, closeL]
    (by decide) (by decide) (by decide)

/-- C8 (confirmed): when the project's `envInitialized` flag is false,
each of the `env add`, `env update` and `env remove` commands reports
the precondition failure and returns at once: neither the `.env` file
nor the `env.d.ts` mirror is touched (the whole state is returned
unchanged), and no retry happens (the commands are plain straight-line
functions of the state). -/
theorem c8_requires_initialized (st : ProjState) (k v : Str)
    (h : st.envInitialized = false) :
    envAddCmd st k v = (st, CmdOutcome.notInitialized) ∧
    envUpdateCmd st k v = (st, CmdOutcome.notInitialized) ∧
    envRemoveCmd st k = (st, CmdOutcome.notInitialized) := by
  refine ⟨?_, ?_, ?_⟩ <;> simp [envAddCmd, envUpdateCmd, envRemoveCmd, h]

/-- C8 (witness): the three commands on a concrete uninitialized bare
project. -/
theorem c8_requires_initialized_witness :
    envAddCmd ⟨false, "bare".data, none, none⟩ "A".data "1".data
      = (⟨false, "bare".data, none, none⟩, CmdOutcome.notInitialized) ∧
    envRemoveCmd ⟨false, "bare".data, none, none⟩ "A".data
      = (⟨false, "bare".data, none, none⟩, CmdOutcome.notInitialized) :=
  ⟨(c8_requires_initialized ⟨false, "bare".data, none, none⟩ "A".data
      "1".data rfl).1,
   (c8_requires_initialized ⟨false, "bare".data, none, none⟩ "A".data
      "1".data rfl).2.2⟩

/-- C9 (confirmed): on an initialized bare-variant project (empty
`.env`, freshly created mirror), `env add` with key `api_url` and value
`http://x` succeeds, the primary file then consists of the line
`API_URL=http://x`, and the mirror consists of the wrapper block whose
body line contains `export const API_URL: string;` (the written line
carries two leading spaces of indentation). -/
theorem c9_bare_add_scenario :
    envAddCmd ⟨true, "bare".data, some [], some [markerL, closeL]⟩
        "api_url".data "http://x".data
      = (⟨true, "bare".data, some ["API_URL=http://x".data],
          some [markerL, "  export const API_URL: string;".data, closeL]⟩,
         CmdOutcome.ok) ∧
    "API_URL=http://x".data ∈ ["API_URL=http://x".data] ∧
    goContains "  export const API_URL: string;".data
        "export const API_URL: string;".data = true := by
  refine ⟨by decide, by decide, by decide⟩

/-- C10 (confirmed): `EnsureExpoPrefix` is idempotent and its result
always carries the `EXPO_PUBLIC_` prefix; consequently, on an
initialized expo-variant project, `env add` stores exactly the upsert
of the prefixed key — whose upper-cased stored form still carries the
prefix — so every key added through the add operation carries
`EXPO_PUBLIC_`. -/
theorem c10_expoPrefix :
    (∀ k, ensureExpoPrefix (ensureExpoPrefix k) = ensureExpoPrefix k) ∧
    (∀ k, hasPrefix (ensureExpoPrefix k) "EXPO_PUBLIC_".data = true) ∧
    (∀ (st : ProjState) (k v : Str), st.envInitialized = true →
      st.projectType = "expo".data →
      (envAddCmd st k v).1.envFile
        = some (saveEnvFile (addOrUpdateKey (loadEnvFile (st.envFile.getD []))
            (ensureExpoPrefix k) v)) ∧
      hasPrefix (toUpper (ensureExpoPrefix k)) "EXPO_PUBLIC_".data = true) := by
  have hpre : ∀ k, hasPrefix (ensureExpoPrefix k) "EXPO_PUBLIC_".data = true := by
    intro k
    by_cases h : hasPrefix k "EXPO_PUBLIC_".data = true
    · unfold ensureExpoPrefix
      rw [if_pos h]
      exact h
    · unfold ensureExpoPrefix
      rw [if_neg h]
      exact hasPrefix_append _ _
  refine ⟨?_, hpre, ?_⟩
  · intro k
    by_cases h : hasPrefix k "EXPO_PUBLIC_".data = true
    · have e1 : ensureExpoPrefix k = k := by
        unfold ensureExpoPrefix; rw [if_pos h]
      rw [e1, e1]
    · have e1 : ensureExpoPrefix k = "EXPO_PUBLIC_".data ++ k := by
        unfold ensureExpoPrefix; rw [if_neg h]
      have h2 : hasPrefix ("EXPO_PUBLIC_".data ++ k) "EXPO_PUBLIC_".data = true :=
        hasPrefix_append _ _
      have e2 : ensureExpoPrefix ("EXPO_PUBLIC_".data ++ k)
          = "EXPO_PUBLIC_".data ++ k := by
        unfold ensureExpoPrefix; rw [if_pos h2]
      rw [e1, e2]
  · intro st k v h1 h2
    have hbare : ¬ st.projectType = "bare".data := by
      rw [h2]; decide
    constructor
    · simp [envAddCmd, h1, h2, hbare]
    · exact hasPrefix_toUpper_expo _ (hpre k)

/-- C10 (witness): the three parts at the concrete key `api` and a
concrete initialized expo project. -/
theorem c10_expoPrefix_witness :
    ensureExpoPrefix (ensureExpoPrefix "api".data) = ensureExpoPrefix "api".data ∧
    hasPrefix (ensureExpoPrefix "api".data) "EXPO_PUBLIC_".data = true ∧
    (envAddCmd ⟨true, "expo".data, some [], none⟩ "api".data "1".data).1.envFile
      = some (saveEnvFile (addOrUpdateKey
          (loadEnvFile ((some ([] : List Str)).getD []))
          (ensureExpoPrefix "api".data) "1".data)) :=
  ⟨c10_expoPrefix.1 "api".data,
   c10_expoPrefix.2.1 "api".data,
   (c10_expoPrefix.2.2 ⟨true, "expo".data, some [], none⟩ "api".data "1".data
      rfl rfl).1⟩

end MirorimCli
